import Mathlib

/-!
Shallow embedding of the probe engine of ICMPmonitor (icmpmonitor.c).

Machine integers are modelled as Int (C int fields, timeval members) or
Nat with explicit reduction modulo 2^32 (C unsigned int counters) and
modulo 2^16 (C u_int16_t fields).  The asynchronous system calls made by
the scheduler and the reply handler (fork, system, exit, wait, sendto)
are recorded as an explicit action trace so that command invocations can
be counted and ordered.
-/

namespace Icmpmonitor

/-- Return code RET_NO_HOSTS from icmpmonitor.c. -/
def RET_NO_HOSTS : Nat := 1

/-- ICMP_MINLEN, the length of the fixed ICMP header in bytes. -/
def ICMP_MINLEN : Nat := 8

/-- ICMP message type of an echo reply. -/
def ICMP_ECHOREPLY : Nat := 0

/-- ICMP message type of an echo request. -/
def ICMP_ECHO : Nat := 8

/-- Modulus of the C type unsigned int, used by the packet counters. -/
def uintMod : Nat := 4294967296

/-- Modulus of the C type u_int16_t, used by the ICMP id and seq fields. -/
def u16Mod : Nat := 65536

/-- Embedding of struct timeval: seconds and microseconds, as C longs. -/
structure Timeval where
  sec : Int
  usec : Int
deriving DecidableEq, Repr

/-- Embedding of tvsub from icmpmonitor.c: out = out - in with a borrow
from the seconds field when the microsecond difference is negative. -/
def tvsub (a b : Timeval) : Timeval :=
  let u := a.usec - b.usec
  if u < 0 then { sec := a.sec - 1 - b.sec, usec := u + 1000000 }
  else { sec := a.sec - b.sec, usec := u }

/-- Embedding of struct monitor_host (the linked-list pointer is replaced
by List structure at the call sites). -/
structure MonitorHost where
  name : String
  ping_interval : Int
  max_delay : Int
  upcmd : String
  downcmd : String
  socket : Int
  last_ping_received : Timeval
  last_ping_sent : Timeval
  up : Int
  down : Int
  sentpackets : Nat
  recvdpackets : Nat
deriving DecidableEq, Repr

/-- Observable actions performed by the scheduler tick and the reply
handler: the fork/system/exit/wait sequence used to run a notification
command, and the sendto of an ECHO request (recorded with the icmp_id
and icmp_seq values placed in the outgoing header). -/
inductive Action where
  | fork : Action
  | system : String → Action
  | exitChild : Action
  | waitChild : Action
  | send : Nat → Int → Action
deriving DecidableEq, Repr

/-- Trace of the command-execution idiom used by both transition paths in
icmpmonitor.c: if(!fork()) { system(cmd); exit(0); } else { wait(nil); }.
The child runs system(cmd) and exits; the parent then calls wait(nil),
which blocks until the child has terminated and discards its status. -/
def execCmd (cmd : String) : List Action :=
  [Action.fork, Action.system cmd, Action.exitChild, Action.waitChild]

/-- Wall-clock readings taken by one pinger pass over one host: t1 is the
gettimeofday before the down check, t2 the one before the send check, and
t3 the one stored into last_ping_sent after sendto. -/
structure TickTimes where
  t1 : Timeval
  t2 : Timeval
  t3 : Timeval
deriving DecidableEq, Repr

/-- Per-host body of pinger from icmpmonitor.c.  Hosts whose socket is the
sentinel -1 are skipped entirely.  Otherwise the down check runs first
(silence measured from last_ping_received against max_delay + ping_interval,
with the down latch and the keepBanging flag gating the command), then the
send check (gap from last_ping_sent against ping_interval); the sendto
outcome sendOk is only logged by the C code and affects no state. -/
def pingerHost (ident : Nat) (keepBanging : Bool) (tt : TickTimes)
    (sendOk : Bool) (h : MonitorHost) : MonitorHost × List Action :=
  if h.socket = -1 then (h, [])
  else
    let d1 := tvsub tt.t1 h.last_ping_received
    let step1 :=
      if d1.sec > h.max_delay + h.ping_interval then
        let h1 := { h with up := 0 }
        if h1.down = 0 ∨ keepBanging then
          ({ h1 with down := 1 }, execCmd h1.downcmd)
        else (h1, [])
      else (h, [])
    let h2 := step1.1
    let d2 := tvsub tt.t2 h2.last_ping_sent
    if d2.sec > h2.ping_interval then
      ({ h2 with last_ping_sent := tt.t3,
                 sentpackets := (h2.sentpackets + 1) % uintMod },
       step1.2 ++ [Action.send ident (h2.socket % (u16Mod : Int))])
    else (h2, step1.2)

/-- Decoded view of the datagram read by read_icmp_data: cc is the byte
count returned by recvfrom, ip_hl the IP header-length field (in 32-bit
words), then the ICMP header fields and the embedded timeval payload. -/
structure IcmpPacket where
  cc : Nat
  ip_hl : Nat
  icmp_type : Nat
  icmp_code : Nat
  icmp_id : Nat
  icmp_seq : Nat
  icmp_data_tv : Timeval
deriving DecidableEq, Repr

/-- Embedding of read_icmp_data from icmpmonitor.c, given the decoded
datagram and the gettimeofday value tv taken at entry.  Short packets and
non-matching packets cause no state change; a matching ECHOREPLY bumps
recvdpackets, refreshes last_ping_received, clears the down latch, and
fires the up command only when up was 0. -/
def read_icmp_data (ident : Nat) (h : MonitorHost) (pkt : IcmpPacket)
    (tv : Timeval) : MonitorHost × List Action :=
  let iphdrlen := pkt.ip_hl * 4
  if pkt.cc < iphdrlen + ICMP_MINLEN then (h, [])
  else if pkt.icmp_type = ICMP_ECHOREPLY ∧ pkt.icmp_id = ident ∧
          (pkt.icmp_seq : Int) = h.socket then
    let h1 := { h with recvdpackets := (h.recvdpackets + 1) % uintMod,
                       last_ping_received := tv, down := 0 }
    if h1.up = 0 then ({ h1 with up := 1 }, execCmd h1.upcmd)
    else (h1, [])
  else (h, [])

/-- Sockets entered into the select read set by get_response: every host
whose socket is not the sentinel -1, in registry order. -/
def pollSet (hs : List MonitorHost) : List Int :=
  (hs.filter (fun h => h.socket != -1)).map (fun h => h.socket)

/-- Fuel-indexed embedding of the subtractive gcd loop from icmpmonitor.c:
while (x != y) { if (x < y) y -= x; else x -= y; } return x.  For positive
arguments the loop terminates within x + y iterations, so the fuel below
never runs out on the inputs the program feeds it. -/
def gcdLoop : Nat → Int → Int → Int
  | 0, x, _ => x
  | fuel + 1, x, y =>
    if x = y then x
    else if x < y then gcdLoop fuel x (y - x)
    else gcdLoop fuel (x - y) y

/-- Embedding of gcd from icmpmonitor.c. -/
def gcd (x y : Int) : Int := gcdLoop (x.toNat + y.toNat) x y

/-- Loop body of init_hosts: each host is paired with the outcome of its
resolution and raw-socket creation (none on failure, some s on success
with socket handle s).  Threads the send_delay accumulator and the ok
counter exactly as the C loop does: the first successful host seeds
send_delay with its ping_interval, later ones fold through gcd. -/
def initLoop : List (MonitorHost × Option Int) → Int → Nat →
    List MonitorHost × Int × Nat
  | [], sendDelay, ok => ([], sendDelay, ok)
  | (h, none) :: rest, sendDelay, ok =>
    let r := initLoop rest sendDelay ok
    ({ h with socket := -1 } :: r.1, r.2)
  | (h, some s) :: rest, sendDelay, ok =>
    let sd := if ok = 0 then h.ping_interval else gcd sendDelay h.ping_interval
    let r := initLoop rest sd (ok + 1)
    ({ h with socket := s } :: r.1, r.2)

/-- Embedding of init_hosts: runs the loop with the global initial
send_delay = 1 and ok = 0, and fails with RET_NO_HOSTS when no host
obtained a valid socket. -/
def init_hosts (pairs : List (MonitorHost × Option Int)) :
    Except Nat (List MonitorHost × Int) :=
  let r := initLoop pairs 1 0
  if r.2.2 = 0 then Except.error RET_NO_HOSTS else Except.ok (r.1, r.2.1)

/-- Scheduler period computed by init_hosts over the ping_intervals of the
hosts that obtained sockets: the first interval seeds the accumulator and
the rest fold through gcd. -/
def computeSendPeriod : List Int → Int
  | [] => 1
  | i :: rest => rest.foldl gcd i

/-- Carry folding of in_cksum: add the high 16 bits of the accumulator to
its low 16 bits, then add the carry of that sum back in.  Right shift by
16 is division by 65536 and masking with 0xffff is reduction mod 65536. -/
def foldCarries (sum : Nat) : Nat :=
  let s1 := sum / 65536 + sum % 65536
  s1 + s1 / 65536

/-- Embedding of in_cksum from icmpmonitor.c over the 16-bit words of an
even-length buffer (the only buffer it is applied to is the fixed 64-byte
ECHO datagram, so the odd-byte branch is never taken): sum the words,
fold the carries, and return the complement of the low 16 bits. -/
def in_cksum (words : List Nat) : Nat :=
  65535 - foldCarries (words.foldl (fun a w => a + w) 0) % 65536

/-- Iterated scheduler ticks on one host with no intervening reply
processing (a continuous silence episode): each tick runs pingerHost with
its own clock readings and sendto outcome, accumulating the traces. -/
def runTicks (ident : Nat) (keepBanging : Bool) :
    List (TickTimes × Bool) → MonitorHost → MonitorHost × List Action
  | [], h => (h, [])
  | tk :: rest, h =>
    let r1 := pingerHost ident keepBanging tk.1 tk.2 h
    let r2 := runTicks ident keepBanging rest r1.1
    (r2.1, r1.2 ++ r2.2)

/-- One pass of pinger over the whole registry: each host is processed by
pingerHost with its own clock readings and sendto outcome, independently
of every other host (the C loop has no early exit). -/
def pinger (ident : Nat) (keepBanging : Bool) (ticks : List (TickTimes × Bool))
    (hs : List MonitorHost) : List (MonitorHost × List Action) :=
  List.zipWith (fun h tk => pingerHost ident keepBanging tk.1 tk.2 h) hs ticks

/-- Low 16 bits of the process id, as assigned to the global ident. -/
def mkIdent (pid : Nat) : Nat := pid % u16Mod

/-- Ping intervals of the hosts that obtained sockets during init_hosts,
in registry order: these are the values whose gcd becomes send_delay. -/
def activeIntervals (pairs : List (MonitorHost × Option Int)) : List Int :=
  (pairs.filter (fun pr => pr.2.isSome)).map (fun pr => pr.1.ping_interval)

/-- Sample host used to evaluate the theorems on concrete inputs. -/
def sampleHost : MonitorHost :=
  { name := "alpha", ping_interval := 2, max_delay := 5,
    upcmd := "up.sh", downcmd := "down.sh", socket := 3,
    last_ping_received := ⟨0, 0⟩, last_ping_sent := ⟨0, 0⟩,
    up := 1, down := 0, sentpackets := 0, recvdpackets := 0 }

/-- Matching echo reply for sampleHost: 84 bytes, 20-byte IP header,
type ECHOREPLY, id 1234, seq equal to the socket handle 3. -/
def matchPkt : IcmpPacket :=
  { cc := 84, ip_hl := 5, icmp_type := 0, icmp_code := 0,
    icmp_id := 1234, icmp_seq := 3, icmp_data_tv := ⟨10, 0⟩ }

/-- Truncated datagram: 10 bytes read, but the IP header alone is 20. -/
def shortPkt : IcmpPacket :=
  { cc := 10, ip_hl := 5, icmp_type := 0, icmp_code := 0,
    icmp_id := 1234, icmp_seq := 3, icmp_data_tv := ⟨10, 0⟩ }

/-- Clock readings six seconds after the epoch used by the sample hosts. -/
def tick6 : TickTimes := ⟨⟨6, 0⟩, ⟨6, 0⟩, ⟨6, 0⟩⟩

/-- Clock readings eight seconds after the epoch. -/
def tick8 : TickTimes := ⟨⟨8, 0⟩, ⟨8, 0⟩, ⟨8, 0⟩⟩

/-- Up host that has been silent since t = 0, with the probe clock far in
the future so the send branch stays quiet. -/
def hostSilent6 : MonitorHost :=
  { name := "beta", ping_interval := 2, max_delay := 5,
    upcmd := "up.sh", downcmd := "down.sh", socket := 3,
    last_ping_received := ⟨0, 0⟩, last_ping_sent := ⟨100, 0⟩,
    up := 1, down := 0, sentpackets := 0, recvdpackets := 0 }

/-- Host already latched down (up = 0, down = 1). -/
def hostDown : MonitorHost :=
  { hostSilent6 with up := 0, down := 1 }

/-- Host in the down state about to receive a matching reply. -/
def hostRecover : MonitorHost :=
  { sampleHost with up := 0, down := 1 }

/-- Host with the sentinel socket left by a failed resolution. -/
def hostBad : MonitorHost :=
  { sampleHost with name := "gamma", socket := -1 }

/-- Host due for a probe: three seconds since the last send, one second
of silence. -/
def hostProbe : MonitorHost :=
  { sampleHost with name := "delta", last_ping_received := ⟨2, 0⟩ }

/-- Clock readings for the probe-send scenario: t = 3 for the checks and
t = 4 written back into last_ping_sent. -/
def tickProbe : TickTimes := ⟨⟨3, 0⟩, ⟨3, 0⟩, ⟨4, 0⟩⟩

/-- Tick sequence used to evaluate the de-duplication theorem: one tick
past the threshold, one below it. -/
def ticksW : List (TickTimes × Bool) := [(tick8, true), (tick6, false)]

/-- Host pair list for init_hosts: intervals 4 and 6, both sockets open. -/
def pairsW : List (MonitorHost × Option Int) :=
  [({ sampleHost with ping_interval := 4 }, some 3),
   ({ sampleHost with name := "beta", ping_interval := 6 }, some 4)]

/-- Sample 32-word datagram for the checksum round trip. -/
def wsW : List Nat := 2048 :: 0 :: 4660 :: List.replicate 29 65535

/-!
Helper lemmas.
-/

/-- Key arithmetic fact about the carry folding: for accumulator values
below 2^21 (any sum of at most 32 words) the low 16 bits of the folded
accumulator are congruent to the accumulator mod 65535, never exceed it,
and are nonzero whenever it is. -/
lemma foldCarries_low16 (S : Nat) (hS : S < 2097152) :
    foldCarries S % 65536 % 65535 = S % 65535 ∧ foldCarries S % 65536 ≤ S ∧
    (0 < S → 0 < foldCarries S % 65536) := by
  simp only [foldCarries]
  rcases Nat.lt_or_ge (S / 65536 + S % 65536) 65536 with hcase | hcase
  · have h0 : (S / 65536 + S % 65536) / 65536 = 0 := by omega
    omega
  · have h1 : (S / 65536 + S % 65536) / 65536 = 1 := by omega
    have h2 : (S / 65536 + S % 65536 + (S / 65536 + S % 65536) / 65536) / 65536 = 1 := by
      omega
    omega

/-- Left fold of addition in terms of List.sum. -/
lemma foldl_add_eq (l : List Nat) : ∀ a : Nat, l.foldl (fun x w => x + w) a = a + l.sum := by
  induction l with
  | nil => intro a; simp
  | cons b l ih =>
    intro a
    simp only [List.foldl_cons, List.sum_cons, ih (a + b)]
    omega

/-- Sum bound for a list of 16-bit words. -/
lemma sum_le_of_lt_u16 (l : List Nat) (hw : ∀ w ∈ l, w < 65536) :
    l.sum ≤ l.length * 65535 := by
  induction l with
  | nil => simp
  | cons b l ih =>
    have hb : b < 65536 := hw b (List.mem_cons_self b l)
    have hl := ih (fun w hmem => hw w (List.mem_cons_of_mem b hmem))
    simp only [List.sum_cons, List.length_cons, Nat.succ_mul]
    omega

/-- Subtracting the smaller argument from the larger leaves Int.gcd fixed. -/
lemma int_gcd_sub_right (x y : Int) : Int.gcd x (y - x) = Int.gcd x y := by
  apply Nat.dvd_antisymm
  · have h1 : (↑(Int.gcd x (y - x)) : Int) ∣ x := Int.gcd_dvd_left
    have h2 : (↑(Int.gcd x (y - x)) : Int) ∣ (y - x) := Int.gcd_dvd_right
    have h3 : (↑(Int.gcd x (y - x)) : Int) ∣ y := by
      have h4 := dvd_add h2 h1
      simpa using h4
    exact_mod_cast Int.dvd_gcd h1 h3
  · have h1 : (↑(Int.gcd x y) : Int) ∣ x := Int.gcd_dvd_left
    have h2 : (↑(Int.gcd x y) : Int) ∣ y := Int.gcd_dvd_right
    exact_mod_cast Int.dvd_gcd h1 (dvd_sub h2 h1)

/-- Mirror image of int_gcd_sub_right for the first argument. -/
lemma int_gcd_sub_left (x y : Int) : Int.gcd (x - y) y = Int.gcd x y := by
  apply Nat.dvd_antisymm
  · have h1 : (↑(Int.gcd (x - y) y) : Int) ∣ (x - y) := Int.gcd_dvd_left
    have h2 : (↑(Int.gcd (x - y) y) : Int) ∣ y := Int.gcd_dvd_right
    have h3 : (↑(Int.gcd (x - y) y) : Int) ∣ x := by
      have h4 := dvd_add h1 h2
      simpa using h4
    exact_mod_cast Int.dvd_gcd h3 h2
  · have h1 : (↑(Int.gcd x y) : Int) ∣ x := Int.gcd_dvd_left
    have h2 : (↑(Int.gcd x y) : Int) ∣ y := Int.gcd_dvd_right
    exact_mod_cast Int.dvd_gcd (dvd_sub h1 h2) h2

/-- With enough fuel the subtractive loop computes Int.gcd on positive
arguments. -/
lemma gcdLoop_eq (fuel : Nat) : ∀ x y : Int, 0 < x → 0 < y → x + y ≤ fuel →
    gcdLoop fuel x y = Int.gcd x y := by
  induction fuel with
  | zero =>
    intro x y hx hy hle
    exfalso
    omega
  | succ n ih =>
    intro x y hx hy hle
    simp only [gcdLoop]
    by_cases hxy : x = y
    · subst hxy
      rw [if_pos rfl, Int.gcd_self, Int.natAbs_of_nonneg (le_of_lt hx)]
    · rw [if_neg hxy]
      by_cases hlt : x < y
      · rw [if_pos hlt, ih x (y - x) hx (by omega) (by omega), int_gcd_sub_right]
      · rw [if_neg hlt, ih (x - y) y (by omega) hy (by omega), int_gcd_sub_left]

/-- The C gcd agrees with Int.gcd on positive arguments. -/
lemma gcd_eq_int_gcd (x y : Int) (hx : 0 < x) (hy : 0 < y) : gcd x y = Int.gcd x y :=
  gcdLoop_eq (x.toNat + y.toNat) x y hx hy (by omega)

/-- The C gcd of positive arguments is positive. -/
lemma gcd_pos (x y : Int) (hx : 0 < x) (hy : 0 < y) : 0 < gcd x y := by
  rw [gcd_eq_int_gcd x y hx hy]
  have hne : Int.gcd x y ≠ 0 := by
    intro h0
    have h1 := Int.gcd_eq_zero_iff.mp h0
    omega
  omega

/-- The C gcd of positive arguments divides both of them. -/
lemma gcd_dvd_both (x y : Int) (hx : 0 < x) (hy : 0 < y) : gcd x y ∣ x ∧ gcd x y ∣ y := by
  rw [gcd_eq_int_gcd x y hx hy]
  exact ⟨Int.gcd_dvd_left, Int.gcd_dvd_right⟩

/-- Common divisors divide the C gcd of positive arguments. -/
lemma dvd_gcd_int (d x y : Int) (hx : 0 < x) (hy : 0 < y) (h1 : d ∣ x) (h2 : d ∣ y) :
    d ∣ gcd x y := by
  rw [gcd_eq_int_gcd x y hx hy]
  exact Int.dvd_gcd h1 h2

/-- Folding the C gcd over positive values yields a positive common
divisor of the seed and of every element. -/
lemma foldl_gcd_dvd (l : List Int) : ∀ a : Int, 0 < a → (∀ x ∈ l, 0 < x) →
    (l.foldl gcd a ∣ a ∧ ∀ x ∈ l, l.foldl gcd a ∣ x) ∧ 0 < l.foldl gcd a := by
  induction l with
  | nil => intro a ha _; exact ⟨⟨dvd_refl a, by simp⟩, ha⟩
  | cons b l ih =>
    intro a ha hpos
    have hb : 0 < b := hpos b (List.mem_cons_self b l)
    have hg : 0 < gcd a b := gcd_pos a b ha hb
    have hrec := ih (gcd a b) hg (fun x hx => hpos x (List.mem_cons_of_mem b hx))
    simp only [List.foldl_cons]
    refine ⟨⟨?_, ?_⟩, hrec.2⟩
    · exact dvd_trans hrec.1.1 (gcd_dvd_both a b ha hb).1
    · intro x hx
      rcases List.mem_cons.mp hx with hxb | hxl
      · subst hxb
        exact dvd_trans hrec.1.1 (gcd_dvd_both a x ha hb).2
      · exact hrec.1.2 x hxl

/-- Every common divisor of the seed and the elements divides the fold. -/
lemma dvd_foldl_gcd (l : List Int) : ∀ a d : Int, 0 < a → (∀ x ∈ l, 0 < x) →
    d ∣ a → (∀ x ∈ l, d ∣ x) → d ∣ l.foldl gcd a := by
  induction l with
  | nil => intro a d _ _ hda _; simpa using hda
  | cons b l ih =>
    intro a d ha hpos hda hdl
    have hb : 0 < b := hpos b (List.mem_cons_self b l)
    simp only [List.foldl_cons]
    exact ih (gcd a b) d (gcd_pos a b ha hb) (fun x hx => hpos x (List.mem_cons_of_mem b hx))
      (dvd_gcd_int d a b ha hb hda (hdl b (List.mem_cons_self b l)))
      (fun x hx => hdl x (List.mem_cons_of_mem b hx))

/-- Fields of a host that no branch of the pinger pass ever writes. -/
lemma pingerHost_frame (ident : Nat) (kb : Bool) (tt : TickTimes) (ok : Bool)
    (h : MonitorHost) :
    (pingerHost ident kb tt ok h).1.last_ping_received = h.last_ping_received ∧
    (pingerHost ident kb tt ok h).1.max_delay = h.max_delay ∧
    (pingerHost ident kb tt ok h).1.ping_interval = h.ping_interval ∧
    (pingerHost ident kb tt ok h).1.downcmd = h.downcmd ∧
    (pingerHost ident kb tt ok h).1.socket = h.socket := by
  by_cases h0 : h.socket = -1
  · simp [pingerHost, h0]
  · by_cases hc1 : (tvsub tt.t1 h.last_ping_received).sec > h.max_delay + h.ping_interval <;>
    by_cases hd : (h.down = 0 ∨ kb = true) <;>
    by_cases hc2 : (tvsub tt.t2 h.last_ping_sent).sec > h.ping_interval <;>
    simp [pingerHost, h0, hc1, hd, hc2]

/-- A set down latch survives any pinger pass (only a matching reply in
read_icmp_data clears it). -/
lemma pingerHost_down_keep (ident : Nat) (kb : Bool) (tt : TickTimes) (ok : Bool)
    (h : MonitorHost) (hd : h.down = 1) : (pingerHost ident kb tt ok h).1.down = 1 := by
  by_cases h0 : h.socket = -1
  · simp [pingerHost, h0, hd]
  · by_cases hc1 : (tvsub tt.t1 h.last_ping_received).sec > h.max_delay + h.ping_interval <;>
    by_cases hkb : kb = true <;>
    by_cases hc2 : (tvsub tt.t2 h.last_ping_sent).sec > h.ping_interval <;>
    simp [pingerHost, h0, hc1, hkb, hc2, hd]

/-- Number of down-command launches in one pinger pass over a host whose
down latch is already set: one exactly when the silence threshold is
crossed and the repeat flag is on, zero otherwise. -/
lemma pingerHost_count_down (ident : Nat) (kb : Bool) (tt : TickTimes) (ok : Bool)
    (h : MonitorHost) (hsock : h.socket ≠ -1) (hd : h.down = 1) :
    (pingerHost ident kb tt ok h).2.count (Action.system h.downcmd) =
      if (tvsub tt.t1 h.last_ping_received).sec > h.max_delay + h.ping_interval ∧ kb = true
      then 1 else 0 := by
  by_cases hc1 : (tvsub tt.t1 h.last_ping_received).sec > h.max_delay + h.ping_interval <;>
  by_cases hkb : kb = true <;>
  by_cases hc2 : (tvsub tt.t2 h.last_ping_sent).sec > h.ping_interval <;>
  simp [pingerHost, hsock, hc1, hkb, hc2, hd, execCmd, List.count_cons, List.count_append,
        List.count_nil]

/-- Down-command launch count over a run of ticks starting from a host
with the down latch set: zero with the repeat flag off, one per tick past
the silence threshold with it on. -/
lemma runTicks_count (ident : Nat) (kb : Bool) (ticks : List (TickTimes × Bool)) :
    ∀ h : MonitorHost, h.socket ≠ -1 → h.down = 1 →
    (runTicks ident kb ticks h).2.count (Action.system h.downcmd) =
      if kb = true then
        ticks.countP
          (fun tk => decide ((tvsub tk.1.t1 h.last_ping_received).sec >
            h.max_delay + h.ping_interval))
      else 0 := by
  induction ticks with
  | nil => intro h _ _; simp [runTicks]
  | cons tk rest ih =>
    intro h hsock hd
    obtain ⟨f1, f2, f3, f4, f5⟩ := pingerHost_frame ident kb tk.1 tk.2 h
    have hd1 := pingerHost_down_keep ident kb tk.1 tk.2 h hd
    have hcount := pingerHost_count_down ident kb tk.1 tk.2 h hsock hd
    have hrec := ih (pingerHost ident kb tk.1 tk.2 h).1 (by rw [f5]; exact hsock) hd1
    rw [f1, f2, f3, f4] at hrec
    simp only [runTicks, List.count_append]
    rw [hcount, hrec]
    by_cases hkb : kb = true
    · simp only [hkb, and_true, if_true, List.countP_cons]
      by_cases hc : (tvsub tk.1.t1 h.last_ping_received).sec > h.max_delay + h.ping_interval <;>
      simp [hc] <;> omega
    · simp [hkb]

/-- Loop of init_hosts with a hopeless outcome list: the success counter
never moves. -/
lemma initLoop_ok_none (pairs : List (MonitorHost × Option Int)) :
    ∀ (sd : Int) (ok : Nat), (∀ pr ∈ pairs, pr.2 = none) →
    (initLoop pairs sd ok).2.2 = ok := by
  induction pairs with
  | nil => intro sd ok _; rfl
  | cons pr rest ih =>
    intro sd ok hall
    obtain ⟨h, o⟩ := pr
    have ho : o = none := hall (h, o) (List.mem_cons_self _ _)
    subst ho
    simp only [initLoop]
    exact ih sd ok (fun q hq => hall q (List.mem_cons_of_mem _ hq))

/-- Send-delay accumulator of the init loop once at least one host has
succeeded: the fold of the C gcd over the remaining active intervals. -/
lemma initLoop_sd_pos (pairs : List (MonitorHost × Option Int)) :
    ∀ (sd : Int) (ok : Nat), 0 < ok →
    (initLoop pairs sd ok).2.1 = (activeIntervals pairs).foldl gcd sd := by
  induction pairs with
  | nil => intro sd ok _; rfl
  | cons pr rest ih =>
    intro sd ok hok
    obtain ⟨h, o⟩ := pr
    cases o with
    | none =>
      simp only [initLoop, activeIntervals, List.filter_cons, Option.isSome_none,
        Bool.false_eq_true, reduceIte]
      exact ih sd ok hok
    | some s =>
      simp only [initLoop, activeIntervals, List.filter_cons, Option.isSome_some,
        reduceIte, List.map_cons, List.foldl_cons]
      rw [if_neg (by omega : ¬ ok = 0)]
      exact ih (gcd sd h.ping_interval) (ok + 1) (by omega)

/-- Send delay produced by a fresh init loop over a list with at least one
success: the gcd fold of the active intervals seeded by the first one. -/
lemma initLoop_sd_zero (pairs : List (MonitorHost × Option Int)) :
    ∀ sd : Int, activeIntervals pairs ≠ [] →
    (initLoop pairs sd 0).2.1 = computeSendPeriod (activeIntervals pairs) := by
  induction pairs with
  | nil => intro sd hne; exact absurd rfl hne
  | cons pr rest ih =>
    intro sd hne
    obtain ⟨h, o⟩ := pr
    cases o with
    | none =>
      have hact : activeIntervals ((h, none) :: rest) = activeIntervals rest := by
        simp [activeIntervals, List.filter_cons]
      rw [hact] at hne ⊢
      simpa only [initLoop] using ih sd hne
    | some s =>
      have hact : activeIntervals ((h, some s) :: rest) =
          h.ping_interval :: activeIntervals rest := by
        simp [activeIntervals, List.filter_cons]
      rw [hact]
      simp only [initLoop, if_pos rfl, computeSendPeriod]
      exact initLoop_sd_pos rest h.ping_interval 1 (by omega)

/-!
Claim theorems.
-/

/-- C1, counterexample: an active up host whose silence (6 s) exceeds
max_delay (5 s) alone is not transitioned to down by the scheduler pass —
the code compares against max_delay + ping_interval (7 s), so the host is
left untouched and no command runs, contradicting the claimed
max_delay-only threshold. -/
theorem down_threshold_counterexample :
    (tvsub tick6.t1 hostSilent6.last_ping_received).sec > hostSilent6.max_delay ∧
    hostSilent6.up = 1 ∧ hostSilent6.socket ≠ -1 ∧
    pingerHost 1234 false tick6 true hostSilent6 = (hostSilent6, []) := by
  decide

/-- C1, amended: an active up host is transitioned to down by the
scheduler pass exactly when the silence since its last received reply
exceeds max_delay + ping_interval (the ping_interval is an addend of the
comparison, not absent from it). -/
theorem down_threshold_amended (ident : Nat) (kb : Bool) (tt : TickTimes) (ok : Bool)
    (h : MonitorHost) (hsock : h.socket ≠ -1) (hup : h.up = 1) :
    ((pingerHost ident kb tt ok h).1.up = 0 ↔
      (tvsub tt.t1 h.last_ping_received).sec > h.max_delay + h.ping_interval) := by
  by_cases hc1 : (tvsub tt.t1 h.last_ping_received).sec > h.max_delay + h.ping_interval <;>
  by_cases hd : (h.down = 0 ∨ kb = true) <;>
  by_cases hc2 : (tvsub tt.t2 h.last_ping_sent).sec > h.ping_interval <;>
  simp [pingerHost, hsock, hc1, hd, hc2, hup]

/-- C1, witness for the amended theorem at a concrete host and tick. -/
theorem down_threshold_amended_witness :
    ((pingerHost 1234 false tick6 true hostSilent6).1.up = 0 ↔
      (tvsub tick6.t1 hostSilent6.last_ping_received).sec >
        hostSilent6.max_delay + hostSilent6.ping_interval) :=
  down_threshold_amended 1234 false tick6 true hostSilent6 (by decide) (by decide)

/-- C2: starting from a host whose down latch is set, a run of scheduler
ticks with no intervening reply (one continuous silence episode) launches
the down command zero times when the repeat-down flag is clear, and once
per tick on which the silence condition holds when the flag is set. -/
theorem down_dedup (ident : Nat) (h : MonitorHost) (ticks : List (TickTimes × Bool))
    (hsock : h.socket ≠ -1) (hdown : h.down = 1) :
    (runTicks ident false ticks h).2.count (Action.system h.downcmd) = 0 ∧
    (runTicks ident true ticks h).2.count (Action.system h.downcmd) =
      ticks.countP
        (fun tk => decide ((tvsub tk.1.t1 h.last_ping_received).sec >
          h.max_delay + h.ping_interval)) := by
  constructor
  · simpa using runTicks_count ident false ticks h hsock hdown
  · simpa using runTicks_count ident true ticks h hsock hdown

/-- C2, witness: two concrete ticks (one past the threshold, one below),
down latch set: zero launches with the flag clear, one with it set. -/
theorem down_dedup_witness :
    (runTicks 1234 false ticksW hostDown).2.count (Action.system hostDown.downcmd) = 0 ∧
    (runTicks 1234 true ticksW hostDown).2.count (Action.system hostDown.downcmd) = 1 := by
  have hmain := down_dedup 1234 hostDown ticksW (by decide) (by decide)
  exact ⟨hmain.1, hmain.2.trans (by decide)⟩

/-- C3, counterexample: a matching reply processed while the host is
already up does not leave every field other than the timestamp unchanged:
the received-packet counter is incremented. -/
theorem up_selftransition_counterexample :
    sampleHost.up = 1 ∧
    (read_icmp_data 1234 sampleHost matchPkt ⟨50, 0⟩).1.recvdpackets ≠
      sampleHost.recvdpackets := by
  decide

/-- C3, amended: processing a matching reply while up never launches the
up command and changes exactly three fields: it refreshes the last-reply
timestamp, increments the received-packet counter, and clears the down
latch; everything else, in particular up itself, is unchanged. -/
theorem up_selftransition_amended (ident : Nat) (h : MonitorHost) (pkt : IcmpPacket)
    (tv : Timeval) (hup : h.up = 1)
    (hlen : ¬ pkt.cc < pkt.ip_hl * 4 + ICMP_MINLEN)
    (ht : pkt.icmp_type = ICMP_ECHOREPLY) (hid : pkt.icmp_id = ident)
    (hseq : (pkt.icmp_seq : Int) = h.socket) :
    read_icmp_data ident h pkt tv =
      ({ h with recvdpackets := (h.recvdpackets + 1) % uintMod,
                last_ping_received := tv, down := 0 }, []) := by
  simp [read_icmp_data, hlen, ht, hid, hseq, hup]

/-- C3, witness for the amended theorem at a concrete up host. -/
theorem up_selftransition_amended_witness :
    read_icmp_data 1234 sampleHost matchPkt ⟨50, 0⟩ =
      ({ sampleHost with recvdpackets := 1, last_ping_received := ⟨50, 0⟩, down := 0 },
       []) :=
  up_selftransition_amended 1234 sampleHost matchPkt ⟨50, 0⟩ (by decide) (by decide)
    (by decide) (by decide) (by decide)

/-- C4: for a registry whose active hosts all have positive intervals and
at least one active host, the send period computed by init_hosts is the
gcd fold of the active intervals; it divides every active interval, every
common divisor is at most it (so it is the greatest), it is independent
of the order of the fold, and the sample set 4, 6, 10 yields 2. -/
theorem send_period_gcd (pairs : List (MonitorHost × Option Int))
    (hpos : ∀ x ∈ activeIntervals pairs, 0 < x) (hne : activeIntervals pairs ≠ []) :
    (∀ (hs : List MonitorHost) (sd : Int), init_hosts pairs = Except.ok (hs, sd) →
      sd = computeSendPeriod (activeIntervals pairs)) ∧
    (∀ x ∈ activeIntervals pairs, computeSendPeriod (activeIntervals pairs) ∣ x) ∧
    (∀ d : Int, (∀ x ∈ activeIntervals pairs, d ∣ x) →
      d ≤ computeSendPeriod (activeIntervals pairs)) ∧
    (∀ l2 : List Int, (activeIntervals pairs).Perm l2 →
      computeSendPeriod l2 = computeSendPeriod (activeIntervals pairs)) ∧
    computeSendPeriod [4, 6, 10] = 2 := by
  obtain ⟨i, rest, hact⟩ : ∃ i rest, activeIntervals pairs = i :: rest := by
    cases hA : activeIntervals pairs with
    | nil => exact absurd hA hne
    | cons i rest => exact ⟨i, rest, rfl⟩
  have hip : 0 < i := hpos i (by rw [hact]; simp)
  have hrp : ∀ x ∈ rest, 0 < x := fun x hx => hpos x (by rw [hact]; simp [hx])
  have hcsp : computeSendPeriod (activeIntervals pairs) = rest.foldl gcd i := by
    rw [hact]; rfl
  have hmain := foldl_gcd_dvd rest i hip hrp
  have hdvdall : ∀ x ∈ activeIntervals pairs,
      computeSendPeriod (activeIntervals pairs) ∣ x := by
    intro x hx
    rw [hcsp]
    rw [hact] at hx
    rcases List.mem_cons.mp hx with h1 | h1
    · subst h1; exact hmain.1.1
    · exact hmain.1.2 x h1
  refine ⟨?_, hdvdall, ?_, ?_, by decide⟩
  · intro hs sd hok
    simp only [init_hosts] at hok
    by_cases hc : (initLoop pairs 1 0).2.2 = 0
    · rw [if_pos hc] at hok
      cases hok
    · rw [if_neg hc] at hok
      have hsd : sd = (initLoop pairs 1 0).2.1 := by
        cases hok
        rfl
      rw [hsd]
      exact initLoop_sd_zero pairs 1 hne
  · intro d hd
    rw [hcsp]
    exact Int.le_of_dvd hmain.2
      (dvd_foldl_gcd rest i d hip hrp (hd i (by rw [hact]; simp))
        (fun x hx => hd x (by rw [hact]; simp [hx])))
  · intro l2 hp
    obtain ⟨j, r2, hl2⟩ : ∃ j r2, l2 = j :: r2 := by
      cases hB : l2 with
      | nil =>
        have hlen := hp.length_eq
        rw [hact, hB] at hlen
        simp at hlen
      | cons j r2 => exact ⟨j, r2, rfl⟩
    have hpos2 : ∀ x ∈ l2, 0 < x := fun x hx => hpos x (hp.mem_iff.mpr hx)
    have hjp : 0 < j := hpos2 j (by rw [hl2]; simp)
    have hr2p : ∀ x ∈ r2, 0 < x := fun x hx => hpos2 x (by rw [hl2]; simp [hx])
    have hm2 := foldl_gcd_dvd r2 j hjp hr2p
    have hcsp2 : computeSendPeriod l2 = r2.foldl gcd j := by rw [hl2]; rfl
    have hdvdall2 : ∀ x ∈ l2, computeSendPeriod l2 ∣ x := by
      intro x hx
      rw [hcsp2]
      rw [hl2] at hx
      rcases List.mem_cons.mp hx with h1 | h1
      · subst h1; exact hm2.1.1
      · exact hm2.1.2 x h1
    have d12 : computeSendPeriod l2 ∣ computeSendPeriod (activeIntervals pairs) := by
      rw [hcsp]
      exact dvd_foldl_gcd rest i (computeSendPeriod l2) hip hrp
        (hdvdall2 i (hp.mem_iff.mp (by rw [hact]; simp)))
        (fun x hx => hdvdall2 x (hp.mem_iff.mp (by rw [hact]; simp [hx])))
    have d21 : computeSendPeriod (activeIntervals pairs) ∣ computeSendPeriod l2 := by
      rw [hcsp2]
      exact dvd_foldl_gcd r2 j (computeSendPeriod (activeIntervals pairs)) hjp hr2p
        (hdvdall j (hp.mem_iff.mpr (by rw [hl2]; simp)))
        (fun x hx => hdvdall x (hp.mem_iff.mpr (by rw [hl2]; simp [hx])))
    have hpos1 : 0 < computeSendPeriod (activeIntervals pairs) := by
      rw [hcsp]; exact hmain.2
    have hpos2c : 0 < computeSendPeriod l2 := by
      rw [hcsp2]; exact hm2.2
    exact Int.dvd_antisymm (le_of_lt hpos2c) (le_of_lt hpos1) d12 d21

/-- C4, witness: two active hosts with intervals 4 and 6 give period 2,
which divides 4 and is reached from below by the common divisor 2; the
sample set 4, 6, 10 folds to 2. -/
theorem send_period_gcd_witness :
    computeSendPeriod (activeIntervals pairsW) ∣ 4 ∧
    (2 : Int) ≤ computeSendPeriod (activeIntervals pairsW) ∧
    computeSendPeriod [4, 6, 10] = 2 :=
  ⟨(send_period_gcd pairsW (by decide) (by decide)).2.1 4 (by decide),
   (send_period_gcd pairsW (by decide) (by decide)).2.2.1 2 (by decide),
   (send_period_gcd pairsW (by decide) (by decide)).2.2.2.2⟩

/-- C5: for every 32-word (64-byte) ECHO datagram, writing the value of
in_cksum computed with the checksum word (word 1 of the ICMP header)
zeroed into that word and re-running in_cksum over the whole datagram,
its own checksum included, yields 0. -/
theorem cksum_roundtrip (ws : List Nat) (hlen : ws.length = 32)
    (hw : ∀ w ∈ ws, w < 65536) :
    in_cksum (ws.set 1 (in_cksum (ws.set 1 0))) = 0 := by
  rcases ws with _ | ⟨w0, ws⟩
  · simp at hlen
  rcases ws with _ | ⟨w1, rest⟩
  · simp at hlen
  have hrl : rest.length = 30 := by simpa using hlen
  have hw0 : w0 < 65536 := hw w0 (by simp)
  have hrest : ∀ w ∈ rest, w < 65536 := fun w hmem => hw w (by simp [hmem])
  have hsum : rest.sum ≤ 1966050 := by
    have hb := sum_le_of_lt_u16 rest hrest
    rw [hrl] at hb
    omega
  show in_cksum (w0 :: in_cksum (w0 :: 0 :: rest) :: rest) = 0
  have e1 : ∀ x : Nat,
      (w0 :: x :: rest).foldl (fun a w => a + w) 0 = x + (w0 + rest.sum) := by
    intro x
    rw [foldl_add_eq]
    simp only [List.sum_cons]
    omega
  simp only [in_cksum, e1, Nat.zero_add]
  have h1 := foldCarries_low16 (w0 + rest.sum) (by omega)
  have h2 := foldCarries_low16
    ((65535 - foldCarries (w0 + rest.sum) % 65536) + (w0 + rest.sum)) (by omega)
  omega

/-- C5, witness: a concrete 32-word datagram round-trips to 0. -/
theorem cksum_roundtrip_witness :
    in_cksum (wsW.set 1 (in_cksum (wsW.set 1 0))) = 0 :=
  cksum_roundtrip wsW (by decide) (by decide)

/-- C6: a received datagram that is shorter than ip-header-length + 8, or
whose type is not ECHOREPLY, or whose identifier differs from the low 16
bits of the process id, or whose sequence differs from the host's socket
discriminator, leaves the host record exactly as it was and launches no
command. -/
theorem silent_discard (pid : Nat) (h : MonitorHost) (pkt : IcmpPacket) (tv : Timeval)
    (hbad : pkt.cc < pkt.ip_hl * 4 + ICMP_MINLEN ∨ pkt.icmp_type ≠ ICMP_ECHOREPLY ∨
            pkt.icmp_id ≠ mkIdent pid ∨ (pkt.icmp_seq : Int) ≠ h.socket) :
    read_icmp_data (mkIdent pid) h pkt tv = (h, []) := by
  by_cases hshort : pkt.cc < pkt.ip_hl * 4 + ICMP_MINLEN
  · simp [read_icmp_data, hshort]
  · have hm : ¬ (pkt.icmp_type = ICMP_ECHOREPLY ∧ pkt.icmp_id = mkIdent pid ∧
        (pkt.icmp_seq : Int) = h.socket) := by tauto
    simp [read_icmp_data, hshort, hm]

/-- C6, witness: a truncated datagram is discarded without any change. -/
theorem silent_discard_witness :
    read_icmp_data (mkIdent 1234) sampleHost shortPkt ⟨50, 0⟩ = (sampleHost, []) :=
  silent_discard 1234 sampleHost shortPkt ⟨50, 0⟩ (Or.inl (by decide))

/-- C7: hosts whose socket is the sentinel -1 are absent from the select
read set and are skipped untouched by the scheduler pass, and an
init_hosts run in which no host obtains a socket fails with
RET_NO_HOSTS. -/
theorem registry_sentinel_invariant :
    (∀ (hs : List MonitorHost) (h : MonitorHost), h ∈ hs → h.socket = -1 →
      h.socket ∉ pollSet hs) ∧
    (∀ (ident : Nat) (kb : Bool) (tt : TickTimes) (ok : Bool) (h : MonitorHost),
      h.socket = -1 → pingerHost ident kb tt ok h = (h, [])) ∧
    (∀ pairs : List (MonitorHost × Option Int), (∀ pr ∈ pairs, pr.2 = none) →
      init_hosts pairs = Except.error RET_NO_HOSTS) := by
  refine ⟨?_, ?_, ?_⟩
  · intro hs h hmem hsock hcon
    obtain ⟨h2, hh2, hEq⟩ := List.mem_map.mp hcon
    have hf := (List.mem_filter.mp hh2).2
    rw [hEq, hsock] at hf
    simp at hf
  · intro ident kb tt ok h hsock
    simp [pingerHost, hsock]
  · intro pairs hall
    have h0 := initLoop_ok_none pairs 1 0 hall
    simp [init_hosts, h0, RET_NO_HOSTS]

/-- C7, witness: a concrete sentinel host is excluded from the poll set
and from the tick, and an all-failing init run exits with RET_NO_HOSTS. -/
theorem registry_sentinel_invariant_witness :
    hostBad.socket ∉ pollSet [sampleHost, hostBad] ∧
    pingerHost 1 false tick6 true hostBad = (hostBad, []) ∧
    init_hosts [(sampleHost, none)] = Except.error RET_NO_HOSTS :=
  ⟨registry_sentinel_invariant.1 [sampleHost, hostBad] hostBad (by decide) (by decide),
   registry_sentinel_invariant.2.1 1 false tick6 true hostBad (by decide),
   registry_sentinel_invariant.2.2 [(sampleHost, none)] (by decide)⟩

/-- C8: when a probe is due the pass updates exactly last_ping_sent (to
the post-send clock reading) and the sent counter and emits one send,
with a result that is the same whether sendto succeeded or failed; a send
outcome never affects the remaining hosts of the pass nor later ticks
(the loop has no early exit). -/
theorem probe_send_bookkeeping :
    (∀ (ident : Nat) (kb : Bool) (tt : TickTimes) (h : MonitorHost),
      h.socket ≠ -1 →
      ¬ (tvsub tt.t1 h.last_ping_received).sec > h.max_delay + h.ping_interval →
      (tvsub tt.t2 h.last_ping_sent).sec > h.ping_interval →
      ∀ ok : Bool, pingerHost ident kb tt ok h =
        ({ h with last_ping_sent := tt.t3,
                  sentpackets := (h.sentpackets + 1) % uintMod },
         [Action.send ident (h.socket % (u16Mod : Int))])) ∧
    (∀ (ident : Nat) (kb : Bool) (tt : TickTimes) (h : MonitorHost),
      pingerHost ident kb tt true h = pingerHost ident kb tt false h) ∧
    (∀ (ident : Nat) (kb : Bool) (tt : TickTimes) (b1 b2 : Bool)
      (rest : List (TickTimes × Bool)) (h : MonitorHost),
      runTicks ident kb ((tt, b1) :: rest) h = runTicks ident kb ((tt, b2) :: rest) h) ∧
    (∀ (ident : Nat) (kb : Bool) (tt : TickTimes) (b : Bool)
      (tts : List (TickTimes × Bool)) (h : MonitorHost) (hs : List MonitorHost),
      pinger ident kb ((tt, b) :: tts) (h :: hs) =
        pingerHost ident kb tt b h :: pinger ident kb tts hs) := by
  refine ⟨?_, fun _ _ _ _ => rfl, fun _ _ _ _ _ _ _ => rfl, fun _ _ _ _ _ _ _ => rfl⟩
  intro ident kb tt h hsock hnc1 hc2 ok
  simp [pingerHost, hsock, hnc1, hc2]

/-- C8, witness: a concrete due host is sent one probe with the clock and
counter updates, identically for a successful and a failed sendto. -/
theorem probe_send_bookkeeping_witness :
    pingerHost 1234 false tickProbe true hostProbe =
      ({ hostProbe with last_ping_sent := ⟨4, 0⟩, sentpackets := 1 },
       [Action.send 1234 3]) ∧
    pingerHost 1234 false tickProbe true hostProbe =
      pingerHost 1234 false tickProbe false hostProbe := by
  have h1 := probe_send_bookkeeping.1 1234 false tickProbe hostProbe (by decide)
    (by decide) (by decide) true
  exact ⟨h1.trans (by decide), probe_send_bookkeeping.2.1 1234 false tickProbe hostProbe⟩

/-- C9, counterexample: the down transition at a concrete host produces
the trace fork, system(downcmd), exit, wait — the handler forks a child
that runs the command synchronously via system and then calls wait(nil),
so the tick handler does synchronously await the command's completion,
contradicting the fire-and-forget claim. -/
theorem async_command_counterexample :
    (pingerHost 1234 false tick8 true hostSilent6).2 =
      [Action.fork, Action.system "down.sh", Action.exitChild, Action.waitChild] ∧
    Action.waitChild ∈ (pingerHost 1234 false tick8 true hostSilent6).2 := by
  decide

/-- C9, amended: on every down transition the tick handler, and on every
up transition the reply handler, runs the command through the same idiom:
fork a child that executes system(cmd) and exits, then call wait(nil) in
the parent, blocking until the child (and hence the command) has
completed; the exit status passed to wait is discarded. -/
theorem command_fork_wait :
    (∀ (ident : Nat) (kb : Bool) (tt : TickTimes) (ok : Bool) (h : MonitorHost),
      h.socket ≠ -1 →
      (tvsub tt.t1 h.last_ping_received).sec > h.max_delay + h.ping_interval →
      (h.down = 0 ∨ kb = true) →
      (pingerHost ident kb tt ok h).2.take 4 =
        [Action.fork, Action.system h.downcmd, Action.exitChild, Action.waitChild]) ∧
    (∀ (ident : Nat) (h : MonitorHost) (pkt : IcmpPacket) (tv : Timeval),
      h.up = 0 → ¬ pkt.cc < pkt.ip_hl * 4 + ICMP_MINLEN →
      pkt.icmp_type = ICMP_ECHOREPLY → pkt.icmp_id = ident →
      (pkt.icmp_seq : Int) = h.socket →
      (read_icmp_data ident h pkt tv).2 =
        [Action.fork, Action.system h.upcmd, Action.exitChild, Action.waitChild]) := by
  refine ⟨?_, ?_⟩
  · intro ident kb tt ok h hsock hc1 hfire
    by_cases hc2 : (tvsub tt.t2 h.last_ping_sent).sec > h.ping_interval <;>
    simp [pingerHost, hsock, hc1, hfire, hc2, execCmd]
  · intro ident h pkt tv hup hlen ht hid hseq
    simp [read_icmp_data, hlen, ht, hid, hseq, hup, execCmd]

/-- C9, witness: the concrete down and up transitions both produce the
fork, system, exit, wait trace. -/
theorem command_fork_wait_witness :
    (pingerHost 1234 false tick8 true hostSilent6).2.take 4 =
      [Action.fork, Action.system hostSilent6.downcmd, Action.exitChild,
       Action.waitChild] ∧
    (read_icmp_data 1234 hostRecover matchPkt ⟨50, 0⟩).2 =
      [Action.fork, Action.system hostRecover.upcmd, Action.exitChild,
       Action.waitChild] :=
  ⟨command_fork_wait.1 1234 false tick8 true hostSilent6 (by decide) (by decide)
    (by decide),
   command_fork_wait.2 1234 hostRecover matchPkt ⟨50, 0⟩ (by decide) (by decide)
    (by decide) (by decide) (by decide)⟩

/-- C10: a matching reply drives any host, whatever its prior up/down
combination (including the equal-flag initial states auto and none), into
the canonical up state: up = 1 and down latch cleared, so a later silence
episode can fire the down command again. -/
theorem reply_canonical (ident : Nat) (h : MonitorHost) (pkt : IcmpPacket) (tv : Timeval)
    (hup : h.up = 0 ∨ h.up = 1)
    (hlen : ¬ pkt.cc < pkt.ip_hl * 4 + ICMP_MINLEN)
    (ht : pkt.icmp_type = ICMP_ECHOREPLY) (hid : pkt.icmp_id = ident)
    (hseq : (pkt.icmp_seq : Int) = h.socket) :
    (read_icmp_data ident h pkt tv).1.up = 1 ∧
    (read_icmp_data ident h pkt tv).1.down = 0 := by
  rcases hup with hu | hu <;> simp [read_icmp_data, hlen, ht, hid, hseq, hu]

/-- C10, witness: a down host receiving the matching reply ends up with
up = 1 and a cleared down latch. -/
theorem reply_canonical_witness :
    (read_icmp_data 1234 hostRecover matchPkt ⟨50, 0⟩).1.up = 1 ∧
    (read_icmp_data 1234 hostRecover matchPkt ⟨50, 0⟩).1.down = 0 :=
  reply_canonical 1234 hostRecover matchPkt ⟨50, 0⟩ (Or.inl (by decide)) (by decide)
    (by decide) (by decide) (by decide)

end Icmpmonitor
